import Mathlib

/-!
Shallow embedding of the P2P group-based file-sharing client (nevil1324/P2P).

C++ `std::string` values are byte sequences, so every string of the program is
modelled as a `List Nat` of byte values (arbitrary bytes, including `0` and the
space byte `32`).  The per-peer registry of the `Files` class is modelled as a
pair of association lists mirroring the two `std::map`s; disk contents are an
oracle `List Nat → Option (List Nat)` (`none` = the path cannot be opened).
All definitions are translated from the source files of the repository.
-/

namespace P2P

/-- Byte value of the ASCII space character, the protocol separator. -/
def spaceByte : Nat := 32

/-- PIECE_SIZE constant from `client/headers.h` (`#define PIECE_SIZE 1024`). -/
def PIECE_SIZE : Nat := 1024

/-- Size of the receive buffer in `ClientSocket::recvSocket` and
`ServerSocket::recvSocket` (`char buffer[524288]`). -/
def BUFFER_SIZE : Nat := 524288

/-- Encode an ASCII Lean string literal as the byte list it denotes in C++. -/
def strBytes (s : String) : List Nat := s.data.map Char.toNat

/-- Helper for `Utils.tokenize`: walks the buffer keeping the current partial
token `temp`, pushing `temp` when the separator is met and it is non-empty
(mirrors the loop body of `Utils::tokenize`). -/
def tokenizeAux (sep : Nat) : List Nat → List Nat → List (List Nat)
  | [], temp => if temp = [] then [] else [temp]
  | c :: rest, temp =>
      if c = sep then
        if temp = [] then tokenizeAux sep rest []
        else temp :: tokenizeAux sep rest []
      else tokenizeAux sep rest (temp ++ [c])

namespace Utils

/-- Model of `Utils::tokenize(string buffer, char separator)`: splits on the
separator, dropping empty tokens. -/
def tokenize (buffer : List Nat) (sep : Nat) : List (List Nat) :=
  tokenizeAux sep buffer []

end Utils

/-- Decimal digit byte test (`'0' ≤ b ≤ '9'`), used to model `std::stoi`. -/
def isDigitByte (b : Nat) : Bool := 48 ≤ b && b ≤ 57

/-- Decimal representation of a natural number as ASCII digit bytes; models
`std::to_string` on a non-negative value. -/
def toDecimal (n : Nat) : List Nat :=
  if n < 10 then [48 + n] else toDecimal (n / 10) ++ [48 + n % 10]
termination_by n
decreasing_by
  omega

/-- Value of a list of decimal digit bytes, most significant first
(accumulator style, as `std::stoi` consumes characters). -/
def digitsToNat (ds : List Nat) : Nat := ds.foldl (fun a d => a * 10 + (d - 48)) 0

/-- Model of `std::stoi` on a byte string: an optional leading `'-'`, then a
maximal run of decimal digits (trailing bytes are ignored, as `stoi` stops at
the first non-digit); no digits at all is the `std::invalid_argument` case. -/
def stoi (l : List Nat) : Except String Int :=
  if l.head? = some 45 then
    if l.tail.takeWhile isDigitByte = [] then .error "stoi: invalid argument"
    else .ok (-(digitsToNat (l.tail.takeWhile isDigitByte) : Int))
  else
    if l.takeWhile isDigitByte = [] then .error "stoi: invalid argument"
    else .ok (digitsToNat (l.takeWhile isDigitByte) : Int)

/-- Decimal representation of a C++ `int` value as ASCII bytes
(models `std::to_string` on an `int`). -/
def intBytes (n : Int) : List Nat :=
  if n < 0 then 45 :: toDecimal n.natAbs else toDecimal n.toNat

section Maps

variable {κ ν : Type} [DecidableEq κ]

/-- Lookup in an association list, modelling `std::map::find`. -/
def mapFind? : List (κ × ν) → κ → Option ν
  | [], _ => none
  | (k, v) :: rest, key => if k = key then some v else mapFind? rest key

/-- Store through `std::map::operator[]` followed by assignment: replaces the
value if the key is present, otherwise adds the binding. -/
def mapInsert : List (κ × ν) → κ → ν → List (κ × ν)
  | [], key, v => [(key, v)]
  | (k, w) :: rest, key, v =>
      if k = key then (k, v) :: rest else (k, w) :: mapInsert rest key v

/-- Model of `std::map::erase(key)`. -/
def mapErase : List (κ × ν) → κ → List (κ × ν)
  | [], _ => []
  | (k, w) :: rest, key => if k = key then rest else (k, w) :: mapErase rest key

/-- Model of `m[key].push_back(v)` on a `std::map<κ, std::vector<ν>>`:
`operator[]` default-constructs an empty vector for an absent key, then the
value `v` is appended. -/
def mapPush : List (κ × List ν) → κ → ν → List (κ × List ν)
  | [], key, v => [(key, [v])]
  | (k, vs) :: rest, key, v =>
      if k = key then (k, vs ++ [v]) :: rest else (k, vs) :: mapPush rest key v

end Maps

/-- State of the `Files` class: the two static maps
`m_fileNameToFilePath : map<pair<string,string>, string>` and
`m_filePathToAvailablePieces : map<string, vector<int>>`. -/
structure FilesState where
  fileNameToFilePath : List ((List Nat × List Nat) × List Nat)
  filePathToAvailablePieces : List (List Nat × List Int)
deriving DecidableEq

namespace Files

/-- Model of `Files::addFilepath`: `m_fileNameToFilePath[{fileName, groupName}] = filePath`. -/
def addFilepath (fileName groupName filePath : List Nat) (s : FilesState) : FilesState :=
  { s with fileNameToFilePath := mapInsert s.fileNameToFilePath (fileName, groupName) filePath }

/-- Model of `Files::addPieceToFilepath`:
`m_filePathToAvailablePieces[filePath].push_back(pieceNumber)`. -/
def addPieceToFilepath (filePath : List Nat) (pieceNumber : Int) (s : FilesState) : FilesState :=
  { s with filePathToAvailablePieces := mapPush s.filePathToAvailablePieces filePath pieceNumber }

/-- Model of `Files::giveFilePath`: returns the mapped path or the empty
string; reads only, no state change. -/
def giveFilePath (fileName groupName : List Nat) (s : FilesState) : List Nat :=
  match mapFind? s.fileNameToFilePath (fileName, groupName) with
  | some p => p
  | none => []

/-- Model of `Files::giveAvailablePieces`: the string `" p1 p2 …"` built by
appending `" " + to_string(piece)` for each piece, or `""` when the path is
not in the map; reads only. -/
def giveAvailablePieces (filePath : List Nat) (s : FilesState) : List Nat :=
  match mapFind? s.filePathToAvailablePieces filePath with
  | none => []
  | some pieces => (pieces.map (fun n => spaceByte :: intBytes n)).flatten

/-- Model of `Files::isPieceAvailable`; reads only. -/
def isPieceAvailable (filePath : List Nat) (pieceNumber : Int) (s : FilesState) : Bool :=
  match mapFind? s.filePathToAvailablePieces filePath with
  | none => false
  | some pieces => pieces.contains pieceNumber

/-- Piece indices currently recorded for a path (the vector of
`m_filePathToAvailablePieces`, empty when the path is absent). -/
def piecesOf (s : FilesState) (filePath : List Nat) : List Int :=
  (mapFind? s.filePathToAvailablePieces filePath).getD []

end Files

namespace Seeder

/-- Model of `Seeder::executeCommand(command, fd)` acting on the `Files` maps
and on the disk oracle.  Returns the thrown error or the reply payload, paired
with the `Files` state after the command.  Mirrors the source branch by
branch: `give_piece_info` answers `" "` for an unknown `(file, group)` pair,
erases a stale filename entry whose path has no piece vector, and otherwise
concatenates `" " + to_string(piece)`; `give_piece` performs the three lookups
and then reads `PIECE_SIZE` bytes at offset `PIECE_SIZE * pieceNumber`
(`lseek` fails on a negative offset; `read` past end-of-file returns the bytes
up to end-of-file). -/
def executeCommand (command : List Nat) (s : FilesState)
    (disk : List Nat → Option (List Nat)) : Except String (List Nat) × FilesState :=
  if command = [] then (.error "Invalid command!!", s)
  else
    match Utils.tokenize command spaceByte with
    | [] => (.error "Invalid command!!", s)
    | t0 :: rest =>
      if t0 = strBytes "give_piece_info" then
        match rest with
        | [fileName, groupName] =>
          match mapFind? s.fileNameToFilePath (fileName, groupName) with
          | none => (.ok [spaceByte], s)
          | some filePath =>
            match mapFind? s.filePathToAvailablePieces filePath with
            | none =>
                (.ok [spaceByte],
                 { s with fileNameToFilePath := mapErase s.fileNameToFilePath (fileName, groupName) })
            | some pieces =>
                (.ok ((pieces.map (fun n => spaceByte :: intBytes n)).flatten), s)
        | _ => (.error "Invalid arguments to give_piece_info command!!", s)
      else if t0 = strBytes "give_piece" then
        match rest with
        | [fileName, groupName, pieceTok] =>
          match stoi pieceTok with
          | .error e => (.error e, s)
          | .ok pieceNumber =>
            match mapFind? s.fileNameToFilePath (fileName, groupName) with
            | none => (.error "File not Exist!!", s)
            | some filePath =>
              match mapFind? s.filePathToAvailablePieces filePath with
              | none => (.error "Filepieces map not Exist!!", s)
              | some tempVec =>
                if pieceNumber ∈ tempVec then
                  match disk filePath with
                  | none => (.error "Failed to open file at Seeder!!", s)
                  | some content =>
                    if pieceNumber < 0 then (.error "Failed to Seek at seeder!!", s)
                    else
                      (.ok ((content.drop (PIECE_SIZE * pieceNumber.toNat)).take PIECE_SIZE), s)
                else (.error "Piece not Found!!", s)
        | _ => (.error "Invalid arguments to give_piece command!!", s)
      else (.error "Invalid command!!", s)

end Seeder

namespace Logger

/-- Condition of `Logger::log`'s first statement:
`content.empty() || content[content.size() - 1] == '\n'` (short-circuit, so
the index is evaluated only on a non-empty string). -/
def logTrims (content : List Nat) : Bool :=
  content.isEmpty || content.getLast? == some 10

/-- Model of `std::string::pop_back`, which has undefined behaviour on the
empty string (`none`). -/
def popBack? (l : List Nat) : Option (List Nat) :=
  if l = [] then none else some l.dropLast

/-- The `content` value `Logger::log` goes on to write, after its conditional
`content.pop_back()`; `none` marks the undefined-behaviour path. -/
def logContentAfterTrim (content : List Nat) : Option (List Nat) :=
  if logTrims content then popBack? content else some content

end Logger

/-- Wire framing of `ClientSocket::sendSocket` and `ServerSocket::sendSocket`:
`message = to_string(message.size()) + " " + message`. -/
def sendFrame (message : List Nat) : List Nat :=
  toDecimal message.length ++ spaceByte :: message

namespace ClientSocket

/-- Model of `ClientSocket::sendSocket`. -/
def sendSocket (message : List Nat) : List Nat := sendFrame message

end ClientSocket

namespace ServerSocket

/-- Model of `ServerSocket::sendSocket`. -/
def sendSocket (response : List Nat) : List Nat := sendFrame response

end ServerSocket

/-- Later iterations of the receive loop of `ClientSocket::recvSocket` /
`ServerSocket::recvSocket`: each `recv` yields the next
`min(remaining, BUFFER_SIZE)` bytes of the stream, they are appended to
`receivedData`, `totalDataLength` is decreased by the bytes read, and the loop
ends when it reaches zero.  `closed` is the behaviour on `recv` returning `0`
(the client socket throws, the server socket returns the empty string). -/
def recvLoop (closed : Except String (List Nat)) :
    List Nat → Int → List Nat → Except String (List Nat)
  | [], _, _ => closed
  | c :: rest, need, acc =>
      if need - (((c :: rest).take BUFFER_SIZE).length : Int) = 0
      then .ok (acc ++ (c :: rest).take BUFFER_SIZE)
      else recvLoop closed ((c :: rest).drop BUFFER_SIZE)
        (need - (((c :: rest).take BUFFER_SIZE).length : Int))
        (acc ++ (c :: rest).take BUFFER_SIZE)
termination_by stream _ _ => stream.length
decreasing_by
  simp only [BUFFER_SIZE, List.length_drop, List.length_cons]
  omega

/-- Model of `ClientSocket::recvSocket` / `ServerSocket::recvSocket` run
against a byte stream whose bytes are already available, `recv` returning
`min(remaining, BUFFER_SIZE)` bytes per call.  The first iteration tokenizes
what was received, takes `temp[0]` as the length token (its absence, or a
`substr` past the end, is the exception path), computes
`totalDataLength = stoi(temp[0]) - (bytesRead - (temp[0].size() + 1))` and
drops the token and the following space; the loop then continues as
`recvLoop`. -/
def recvFromStream (closed : Except String (List Nat)) (stream : List Nat) :
    Except String (List Nat) :=
  if stream = [] then closed
  else
    match Utils.tokenize (stream.take BUFFER_SIZE) spaceByte with
    | [] => .error "vector index out of range"
    | tok :: _ =>
      match stoi tok with
      | .error e => .error e
      | .ok len =>
        if (stream.take BUFFER_SIZE).length < tok.length + 1 then
          .error "substr: out of range"
        else if len - (((stream.take BUFFER_SIZE).length : Int) - ((tok.length : Int) + 1)) = 0
        then .ok ((stream.take BUFFER_SIZE).drop (tok.length + 1))
        else
          recvLoop closed (stream.drop BUFFER_SIZE)
            (len - (((stream.take BUFFER_SIZE).length : Int) - ((tok.length : Int) + 1)))
            ((stream.take BUFFER_SIZE).drop (tok.length + 1))

namespace ClientSocket

/-- Model of `ClientSocket::recvSocket`; a `recv` returning `0` throws
`"Error: Server closed the connection!!"`. -/
def recvSocket (stream : List Nat) : Except String (List Nat) :=
  recvFromStream (.error "Error: Server closed the connection!!") stream

end ClientSocket

namespace ServerSocket

/-- Model of `ServerSocket::recvSocket`; a `recv` returning `0` makes the
function return the empty string. -/
def recvSocket (stream : List Nat) : Except String (List Nat) :=
  recvFromStream (.ok []) stream

end ServerSocket

/-- Chunks of a file as read by the loop of `Utils::findSHA`: successive
`read(fd, buffer, PIECE_SIZE)` calls return the next `PIECE_SIZE` bytes (the
final chunk being whatever remains), one `SHA256_CTX` being pushed per
non-empty read. -/
def pieceChunks (file : List Nat) : List (List Nat) :=
  if h : file = [] then []
  else file.take PIECE_SIZE :: pieceChunks (file.drop PIECE_SIZE)
termination_by file.length
decreasing_by
  have hP : (0 : Nat) < PIECE_SIZE := by decide
  have hne : file.length ≠ 0 := fun hl => h (List.length_eq_zero.mp hl)
  simp only [List.length_drop]
  omega

namespace Utils

/-- Model of `Utils::findSHA`, parameterized by the hash function `H`
(SHA-256 hex digest of a byte sequence): the first element is the digest of
the whole file fed chunk by chunk into one context, followed by the digest of
each chunk from its own context. -/
def findSHA (H : List Nat → String) (file : List Nat) : List String :=
  H ((pieceChunks file).flatten) :: (pieceChunks file).map H

end Utils

/-- State of the `Leecher` relevant to `show_downloads`: the session token and
the three download-session sets declared in `client/headers.h`
(`m_downloadingFiles`, `m_downloadedFiles`, `m_downloadFailFiles`, each a
`set<pair<string,string>>` keyed by (groupId, fileName)). -/
structure LeecherState where
  authToken : List Nat
  downloadingFiles : List (List Nat × List Nat)
  downloadedFiles : List (List Nat × List Nat)
  downloadFailFiles : List (List Nat × List Nat)
deriving DecidableEq

namespace Leecher

/-- Model of `Leecher::showDownloads`: the messages it sends to the tracker.
The source builds `messageForTracker = inputFromClient + " " + m_authToken`
and calls `sendTracker(messageForTracker)` exactly once (then prints the
tracker's response); it never reads the three download sets. -/
def showDownloadsMessages (inputFromClient : List Nat) (st : LeecherState) :
    List (List Nat) :=
  [inputFromClient ++ spaceByte :: st.authToken]

end Leecher

/-- One operation on the local file registry, as enumerated by claim C6: the
five `Files` entry points plus a framed seeder command handled by
`Seeder::executeCommand`. -/
inductive FilesOp
  | addFilepath (fileName groupName filePath : List Nat)
  | addPieceToFilepath (filePath : List Nat) (pieceNumber : Int)
  | giveFilePath (fileName groupName : List Nat)
  | giveAvailablePieces (filePath : List Nat)
  | isPieceAvailable (filePath : List Nat) (pieceNumber : Int)
  | seederCommand (command : List Nat) (disk : List Nat → Option (List Nat))

/-- Effect of one registry operation on the `Files` state (the three query
operations only read under their locks and leave both maps unchanged). -/
def applyFilesOp (op : FilesOp) (s : FilesState) : FilesState :=
  match op with
  | .addFilepath fn gn fp => Files.addFilepath fn gn fp s
  | .addPieceToFilepath fp n => Files.addPieceToFilepath fp n s
  | .giveFilePath _ _ => s
  | .giveAvailablePieces _ => s
  | .isPieceAvailable _ _ => s
  | .seederCommand cmd disk => (Seeder.executeCommand cmd s disk).2

/-- Effect of a sequence of registry operations, first operation first. -/
def applyFilesOps (ops : List FilesOp) (s : FilesState) : FilesState :=
  ops.foldl (fun st op => applyFilesOp op st) s

/-! ### Lemmas about tokenization -/

theorem tokenizeAux_nil_eq (sep : Nat) (temp : List Nat) :
    tokenizeAux sep [] temp = if temp = [] then [] else [temp] := rfl

theorem tokenizeAux_cons_eq (sep c : Nat) (rest temp : List Nat) :
    tokenizeAux sep (c :: rest) temp =
      if c = sep then
        if temp = [] then tokenizeAux sep rest []
        else temp :: tokenizeAux sep rest []
      else tokenizeAux sep rest (temp ++ [c]) := rfl

theorem tokenizeAux_append_nonsep {sep : Nat} (t : List Nat)
    (hsep : ∀ b ∈ t, b ≠ sep) (l temp : List Nat) :
    tokenizeAux sep (t ++ l) temp = tokenizeAux sep l (temp ++ t) := by
  induction t generalizing temp with
  | nil => simp
  | cons c t ih =>
      have hc : c ≠ sep := hsep c (by simp)
      have ht : ∀ b ∈ t, b ≠ sep := fun b hb => hsep b (by simp [hb])
      rw [List.cons_append, tokenizeAux_cons_eq, if_neg hc, ih ht]
      simp

theorem tokenizeAux_sep_cons {sep : Nat} (l temp : List Nat) (h : temp ≠ []) :
    tokenizeAux sep (sep :: l) temp = temp :: tokenizeAux sep l [] := by
  rw [tokenizeAux_cons_eq, if_pos rfl, if_neg h]

theorem tokenize_token_sep {sep : Nat} (t rest : List Nat) (ht : t ≠ [])
    (hsep : ∀ b ∈ t, b ≠ sep) :
    Utils.tokenize (t ++ sep :: rest) sep = t :: Utils.tokenize rest sep := by
  unfold Utils.tokenize
  rw [tokenizeAux_append_nonsep t hsep, List.nil_append, tokenizeAux_sep_cons _ _ ht]

theorem tokenize_token_nil {sep : Nat} (t : List Nat) (ht : t ≠ [])
    (hsep : ∀ b ∈ t, b ≠ sep) :
    Utils.tokenize t sep = [t] := by
  unfold Utils.tokenize
  have h := tokenizeAux_append_nonsep t hsep [] []
  simp only [List.append_nil, List.nil_append] at h
  rw [h, tokenizeAux_nil_eq, if_neg ht]

theorem tokenizeAux_flatten_tokens {α : Type} {sep : Nat} (f : α → List Nat)
    (hne : ∀ a, f a ≠ []) (hsep : ∀ a, ∀ b ∈ f a, b ≠ sep) :
    ∀ (ps : List α) (temp : List Nat), temp ≠ [] →
      tokenizeAux sep ((ps.map (fun n => sep :: f n)).flatten) temp = temp :: ps.map f := by
  intro ps
  induction ps with
  | nil =>
      intro temp h
      rw [List.map_nil, List.flatten_nil, tokenizeAux_nil_eq, if_neg h, List.map_nil]
  | cons p ps ih =>
      intro temp h
      simp only [List.map_cons, List.flatten_cons, List.cons_append]
      rw [tokenizeAux_sep_cons _ _ h, tokenizeAux_append_nonsep (f p) (hsep p),
        List.nil_append, ih (f p) (hne p)]

theorem tokenize_flatten_tokens {α : Type} {sep : Nat} (f : α → List Nat)
    (hne : ∀ a, f a ≠ []) (hsep : ∀ a, ∀ b ∈ f a, b ≠ sep) (ps : List α) :
    Utils.tokenize ((ps.map (fun n => sep :: f n)).flatten) sep = ps.map f := by
  cases ps with
  | nil => rfl
  | cons p ps =>
      unfold Utils.tokenize
      simp only [List.map_cons, List.flatten_cons, List.cons_append]
      rw [tokenizeAux_cons_eq, if_pos rfl, if_pos rfl,
        tokenizeAux_append_nonsep (f p) (hsep p), List.nil_append,
        tokenizeAux_flatten_tokens f hne hsep ps (f p) (hne p)]

/-! ### Lemmas about decimal printing and parsing -/

theorem toDecimal_digits (n : Nat) : ∀ b ∈ toDecimal n, 48 ≤ b ∧ b ≤ 57 := by
  induction n using Nat.strong_induction_on with
  | _ n ih =>
      rw [toDecimal]
      by_cases h : n < 10
      · simp only [if_pos h, List.mem_singleton]
        rintro b rfl
        omega
      · simp only [if_neg h, List.mem_append, List.mem_singleton]
        rintro b (hb | rfl)
        · exact ih (n / 10) (Nat.div_lt_self (by omega) (by omega)) b hb
        · have := Nat.mod_lt n (show 0 < 10 by omega)
          omega

theorem toDecimal_ne_nil (n : Nat) : toDecimal n ≠ [] := by
  rw [toDecimal]
  by_cases h : n < 10 <;> simp [h]

theorem toDecimal_no_sep (n : Nat) : ∀ b ∈ toDecimal n, b ≠ spaceByte := by
  intro b hb
  have := toDecimal_digits n b hb
  unfold spaceByte
  omega

theorem takeWhile_all {p : Nat → Bool} {l : List Nat} (h : ∀ b ∈ l, p b = true) :
    l.takeWhile p = l := by
  induction l with
  | nil => rfl
  | cons c t ih =>
      rw [List.takeWhile_cons, if_pos (h c (by simp))]
      rw [ih (fun b hb => h b (by simp [hb]))]

theorem toDecimal_isDigit (n : Nat) : ∀ b ∈ toDecimal n, isDigitByte b = true := by
  intro b hb
  have := toDecimal_digits n b hb
  simp [isDigitByte]
  omega

theorem foldl_toDecimal (n : Nat) :
    ∀ a : Nat, (toDecimal n).foldl (fun a d => a * 10 + (d - 48)) a
      = a * 10 ^ (toDecimal n).length + n := by
  induction n using Nat.strong_induction_on with
  | _ n ih =>
      intro a
      rw [toDecimal]
      by_cases h : n < 10
      · simp [if_pos h]
      · simp only [if_neg h, List.foldl_append, List.foldl_cons, List.foldl_nil,
          List.length_append, List.length_cons, List.length_nil]
        rw [ih (n / 10) (Nat.div_lt_self (by omega) (by omega)) a]
        have h10 : 10 ^ ((toDecimal (n / 10)).length + (0 + 1))
            = 10 ^ (toDecimal (n / 10)).length * 10 := by
          rw [pow_succ]
        rw [h10]
        have hmod : 48 + n % 10 - 48 = n % 10 := by omega
        rw [hmod]
        have := Nat.div_add_mod n 10
        ring_nf
        omega

theorem digitsToNat_toDecimal (n : Nat) : digitsToNat (toDecimal n) = n := by
  unfold digitsToNat
  rw [foldl_toDecimal n 0]
  omega

theorem toDecimal_head_ne_45 (n : Nat) : (toDecimal n).head? ≠ some 45 := by
  obtain ⟨b, bs, hb⟩ := List.exists_cons_of_ne_nil (toDecimal_ne_nil n)
  have hdig := toDecimal_digits n b (by rw [hb]; exact List.mem_cons_self b bs)
  rw [hb]
  simp only [List.head?_cons, ne_eq, Option.some.injEq]
  omega

theorem stoi_toDecimal (n : Nat) : stoi (toDecimal n) = .ok (n : Int) := by
  unfold stoi
  rw [if_neg (toDecimal_head_ne_45 n), takeWhile_all (toDecimal_isDigit n),
    if_neg (toDecimal_ne_nil n), digitsToNat_toDecimal]

theorem intBytes_toDecimal_of_nonneg {n : Int} (h : 0 ≤ n) :
    intBytes n = toDecimal n.toNat := by
  unfold intBytes
  rw [if_neg (by omega)]

theorem stoi_intBytes (n : Int) : stoi (intBytes n) = .ok n := by
  by_cases h : n < 0
  · unfold intBytes
    rw [if_pos h]
    unfold stoi
    rw [if_pos (by simp)]
    simp only [List.tail_cons]
    rw [takeWhile_all (toDecimal_isDigit n.natAbs)]
    rw [if_neg (toDecimal_ne_nil n.natAbs), digitsToNat_toDecimal]
    congr 1
    omega
  · rw [intBytes_toDecimal_of_nonneg (by omega), stoi_toDecimal]
    congr 1
    omega

theorem intBytes_ne_nil (n : Int) : intBytes n ≠ [] := by
  unfold intBytes
  by_cases h : n < 0
  · simp [h]
  · simp only [if_neg h]
    exact toDecimal_ne_nil _

theorem intBytes_no_sep (n : Int) : ∀ b ∈ intBytes n, b ≠ spaceByte := by
  intro b hb
  unfold intBytes at hb
  by_cases h : n < 0
  · rw [if_pos h] at hb
    rcases List.mem_cons.mp hb with rfl | hb'
    · unfold spaceByte; omega
    · exact toDecimal_no_sep _ b hb'
  · rw [if_neg h] at hb
    exact toDecimal_no_sep _ b hb

theorem toDecimal_length_le (k : Nat) (hk : 1 ≤ k) :
    ∀ n, n < 10 ^ k → (toDecimal n).length ≤ k := by
  induction k with
  | zero => omega
  | succ k ih =>
      intro n hn
      rw [toDecimal]
      by_cases h : n < 10
      · rw [if_pos h]
        simp
      · rw [if_neg h]
        have hk1 : 1 ≤ k := by
          by_contra hk0
          have hk0' : k = 0 := by omega
          subst hk0'
          norm_num at hn
          omega
        have hdiv : n / 10 < 10 ^ k := by
          rw [Nat.div_lt_iff_lt_mul (by omega : 0 < 10), ← pow_succ]
          exact hn
        have hlen := ih hk1 (n / 10) hdiv
        simp only [List.length_append, List.length_cons, List.length_nil]
        omega

/-! ### Lemmas about the wire framing -/

theorem take_eq_take_min {α : Type} (l : List α) (n : Nat) :
    l.take n = l.take (min n l.length) := by
  rcases le_total n l.length with h | h
  · rw [min_eq_left h]
  · rw [min_eq_right h, List.take_of_length_le h, List.take_length]

theorem recvLoop_cons_eq (closed : Except String (List Nat)) (c : Nat) (rest : List Nat)
    (need : Int) (acc : List Nat) :
    recvLoop closed (c :: rest) need acc =
      if need - (((c :: rest).take BUFFER_SIZE).length : Int) = 0
      then .ok (acc ++ (c :: rest).take BUFFER_SIZE)
      else recvLoop closed ((c :: rest).drop BUFFER_SIZE)
        (need - (((c :: rest).take BUFFER_SIZE).length : Int))
        (acc ++ (c :: rest).take BUFFER_SIZE) := by
  rw [recvLoop]

theorem recvLoop_exact (closed : Except String (List Nat)) :
    ∀ (k : Nat) (rest : List Nat), rest.length = k → rest ≠ [] → ∀ acc : List Nat,
      recvLoop closed rest (k : Int) acc = .ok (acc ++ rest) := by
  intro k
  induction k using Nat.strong_induction_on with
  | _ k ih =>
      intro rest hk hne acc
      obtain ⟨c, t, rfl⟩ := List.exists_cons_of_ne_nil hne
      rw [recvLoop_cons_eq, List.length_take]
      by_cases hle : (c :: t).length ≤ BUFFER_SIZE
      · rw [min_eq_right hle, hk, sub_self, if_pos rfl,
          List.take_of_length_le hle]
      · have hlt : BUFFER_SIZE < (c :: t).length := by omega
        rw [min_eq_left (le_of_lt hlt)]
        rw [if_neg (by omega)]
        have hcast : (k : Int) - (BUFFER_SIZE : Int) = ((k - BUFFER_SIZE : Nat) : Int) := by
          omega
        rw [hcast]
        have hdl : ((c :: t).drop BUFFER_SIZE).length = k - BUFFER_SIZE := by
          rw [List.length_drop]
          omega
        have hdne : (c :: t).drop BUFFER_SIZE ≠ [] := by
          apply List.length_pos.mp
          rw [hdl]
          have hbuf : (0 : Nat) < BUFFER_SIZE := by decide
          omega
        rw [ih (k - BUFFER_SIZE) (by simp only [BUFFER_SIZE] at hlt hk ⊢; omega)
          _ hdl hdne (acc ++ (c :: t).take BUFFER_SIZE)]
        rw [List.append_assoc, List.take_append_drop]

theorem sendFrame_ne_nil (m : List Nat) : sendFrame m ≠ [] := by
  unfold sendFrame
  simp [toDecimal_ne_nil]

theorem append_cons_take {α : Type} (l : List α) (a : α) (r : List α) (i : Nat) :
    (l ++ a :: r).take (l.length + (i + 1)) = l ++ a :: r.take i := by
  rw [List.take_append (i + 1), List.take_succ_cons]

theorem append_cons_drop {α : Type} (l : List α) (a : α) (r : List α) :
    (l ++ a :: r).drop (l.length + 1) = r := by
  rw [List.drop_append 1, List.drop_succ_cons, List.drop_zero]

theorem append_cons_drop_more {α : Type} (l : List α) (a : α) (r : List α) (i : Nat) :
    (l ++ a :: r).drop (l.length + (i + 1)) = r.drop i := by
  rw [List.drop_append (i + 1), List.drop_succ_cons]

theorem sendFrame_length (m : List Nat) :
    (sendFrame m).length = (toDecimal m.length).length + 1 + m.length := by
  unfold sendFrame
  simp only [List.length_append, List.length_cons]
  omega

theorem recvFromStream_sendFrame (closed : Except String (List Nat)) (m : List Nat)
    (hm : m.length < 2147483648) :
    recvFromStream closed (sendFrame m) = .ok m := by
  have hdl : (toDecimal m.length).length ≤ 10 := by
    apply toDecimal_length_le 10 (by omega)
    have h10 : (10 : Nat) ^ 10 = 10000000000 := by norm_num
    omega
  have hbuf : BUFFER_SIZE = 524288 := rfl
  have hsf : sendFrame m = toDecimal m.length ++ spaceByte :: m := rfl
  have hsfl := sendFrame_length m
  by_cases hcase : (sendFrame m).length ≤ BUFFER_SIZE
  · have htake : (sendFrame m).take BUFFER_SIZE = toDecimal m.length ++ spaceByte :: m := by
      rw [List.take_of_length_le hcase, hsf]
    have htok : Utils.tokenize ((sendFrame m).take BUFFER_SIZE) spaceByte
        = toDecimal m.length :: Utils.tokenize m spaceByte := by
      rw [htake]
      exact tokenize_token_sep _ _ (toDecimal_ne_nil _) (toDecimal_no_sep _)
    have hlen : ((sendFrame m).take BUFFER_SIZE).length
        = (toDecimal m.length).length + 1 + m.length := by
      rw [htake, ← hsf, hsfl]
    have hdrop : ((sendFrame m).take BUFFER_SIZE).drop ((toDecimal m.length).length + 1)
        = m := by
      rw [htake]
      exact append_cons_drop _ _ _
    rw [recvFromStream, if_neg (sendFrame_ne_nil m)]
    simp only [htok, stoi_toDecimal]
    rw [if_neg (by rw [hlen]; omega)]
    rw [if_pos (by rw [hlen]; push_cast; ring)]
    rw [hdrop]
  · have hmlen : BUFFER_SIZE - (toDecimal m.length).length - 1 < m.length := by omega
    have hkk : BUFFER_SIZE
        = (toDecimal m.length).length + ((BUFFER_SIZE - (toDecimal m.length).length - 1) + 1) := by
      omega
    have htake : (sendFrame m).take BUFFER_SIZE
        = toDecimal m.length
            ++ spaceByte :: m.take (BUFFER_SIZE - (toDecimal m.length).length - 1) := by
      rw [hsf]
      conv_lhs => rw [hkk]
      exact append_cons_take _ _ _ _
    have htok : Utils.tokenize ((sendFrame m).take BUFFER_SIZE) spaceByte
        = toDecimal m.length
            :: Utils.tokenize (m.take (BUFFER_SIZE - (toDecimal m.length).length - 1))
                 spaceByte := by
      rw [htake]
      exact tokenize_token_sep _ _ (toDecimal_ne_nil _) (toDecimal_no_sep _)
    have hlen : ((sendFrame m).take BUFFER_SIZE).length = BUFFER_SIZE := by
      rw [List.length_take]
      apply min_eq_left
      omega
    have hdrop : ((sendFrame m).take BUFFER_SIZE).drop ((toDecimal m.length).length + 1)
        = m.take (BUFFER_SIZE - (toDecimal m.length).length - 1) := by
      rw [htake]
      exact append_cons_drop _ _ _
    have hdropstream : (sendFrame m).drop BUFFER_SIZE
        = m.drop (BUFFER_SIZE - (toDecimal m.length).length - 1) := by
      rw [hsf]
      conv_lhs => rw [hkk]
      exact append_cons_drop_more _ _ _ _
    have hrestne : m.drop (BUFFER_SIZE - (toDecimal m.length).length - 1) ≠ [] := by
      apply List.length_pos.mp
      rw [List.length_drop]
      omega
    have hneed : (m.length : Int)
          - (((BUFFER_SIZE : Nat) : Int) - (((toDecimal m.length).length : Nat) + 1))
        = ((m.drop (BUFFER_SIZE - (toDecimal m.length).length - 1)).length : Int) := by
      rw [List.length_drop]
      omega
    rw [recvFromStream, if_neg (sendFrame_ne_nil m)]
    simp only [htok, stoi_toDecimal]
    rw [if_neg (by rw [hlen]; omega)]
    rw [if_neg (by rw [hlen]; push_cast; omega)]
    rw [hlen, hdrop, hdropstream, hneed,
      recvLoop_exact closed _ _ rfl hrestne _, List.take_append_drop]

/-! ### Lemmas about file chunking -/

theorem pieceChunks_nil : pieceChunks [] = [] := by
  rw [pieceChunks]
  simp

theorem pieceChunks_cons (file : List Nat) (h : file ≠ []) :
    pieceChunks file = file.take PIECE_SIZE :: pieceChunks (file.drop PIECE_SIZE) := by
  rw [pieceChunks]
  rw [dif_neg h]

theorem pieceChunks_flatten (file : List Nat) : (pieceChunks file).flatten = file := by
  generalize hn : file.length = n
  induction n using Nat.strong_induction_on generalizing file with
  | _ n ih =>
      by_cases h : file = []
      · subst h
        rw [pieceChunks_nil]
        rfl
      · have hlen0 : file.length ≠ 0 := fun h0 => h (List.length_eq_zero.mp h0)
        rw [pieceChunks_cons file h, List.flatten_cons,
          ih ((file.drop PIECE_SIZE).length)
            (by rw [List.length_drop]; simp only [PIECE_SIZE]; omega)
            (file.drop PIECE_SIZE) rfl]
        exact List.take_append_drop _ _

theorem pieceChunks_eq_range_map :
    ∀ (n : Nat) (file : List Nat), file.length = n → file ≠ [] →
      pieceChunks file
        = (List.range ((file.length + (PIECE_SIZE - 1)) / PIECE_SIZE)).map
            (fun i => (file.drop (PIECE_SIZE * i)).take PIECE_SIZE) := by
  intro n
  induction n using Nat.strong_induction_on with
  | _ n ih =>
      intro file hn h
      have hlen0 : file.length ≠ 0 := fun h0 => h (List.length_eq_zero.mp h0)
      by_cases hle : file.length ≤ PIECE_SIZE
      · have hone : (file.length + (PIECE_SIZE - 1)) / PIECE_SIZE = 1 := by
          simp only [PIECE_SIZE] at hle ⊢
          omega
        have hdrop : file.drop PIECE_SIZE = [] := List.drop_eq_nil_of_le hle
        have hr1 : List.range 1 = [0] := rfl
        rw [pieceChunks_cons file h, hdrop, pieceChunks_nil, hone, hr1,
          List.map_cons, List.map_nil, Nat.mul_zero, List.drop_zero]
      · have hquot : (file.length + (PIECE_SIZE - 1)) / PIECE_SIZE
            = ((file.drop PIECE_SIZE).length + (PIECE_SIZE - 1)) / PIECE_SIZE + 1 := by
          rw [List.length_drop]
          simp only [PIECE_SIZE] at hle ⊢
          omega
        have hdne : file.drop PIECE_SIZE ≠ [] := by
          apply List.length_pos.mp
          rw [List.length_drop]
          simp only [PIECE_SIZE] at hle ⊢
          omega
        rw [pieceChunks_cons file h, hquot, List.range_succ_eq_map, List.map_cons,
          ih ((file.drop PIECE_SIZE).length)
            (by rw [List.length_drop]; simp only [PIECE_SIZE] at hle ⊢; omega)
            (file.drop PIECE_SIZE) rfl hdne, List.map_map]
        congr 1
        apply List.map_congr_left
        intro i _
        simp only [Function.comp_apply]
        rw [List.drop_drop]
        have harith : PIECE_SIZE + PIECE_SIZE * i = PIECE_SIZE * (i + 1) := by ring
        rw [harith, Nat.succ_eq_add_one]

theorem pieceChunks_length (file : List Nat) (h : file ≠ []) :
    (pieceChunks file).length = (file.length + (PIECE_SIZE - 1)) / PIECE_SIZE := by
  rw [pieceChunks_eq_range_map file.length file rfl h, List.length_map, List.length_range]

theorem findSHA_eq (H : List Nat → String) (file : List Nat) (h : file ≠ []) :
    Utils.findSHA H file
      = H file :: (List.range ((file.length + (PIECE_SIZE - 1)) / PIECE_SIZE)).map
          (fun i => H ((file.drop (PIECE_SIZE * i)).take PIECE_SIZE)) := by
  unfold Utils.findSHA
  rw [pieceChunks_flatten, pieceChunks_eq_range_map file.length file rfl h, List.map_map]
  rfl

/-! ### Lemmas about the registry maps -/

theorem mapFind?_mapPush {κ ν : Type} [DecidableEq κ] (l : List (κ × List ν)) (k : κ) (v : ν) :
    mapFind? (mapPush l k v) k = some ((mapFind? l k).getD [] ++ [v]) := by
  induction l with
  | nil => simp [mapPush, mapFind?]
  | cons p rest ih =>
      obtain ⟨k', vs⟩ := p
      by_cases hk : k' = k
      · subst hk
        simp [mapPush, mapFind?]
      · simp only [mapPush, if_neg hk, mapFind?, ih]

theorem mapFind?_mapPush_ne {κ ν : Type} [DecidableEq κ] (l : List (κ × List ν)) (k k' : κ)
    (v : ν) (h : k' ≠ k) : mapFind? (mapPush l k v) k' = mapFind? l k' := by
  induction l with
  | nil => simp [mapPush, mapFind?, Ne.symm h]
  | cons p rest ih =>
      obtain ⟨k'', vs⟩ := p
      by_cases hk : k'' = k
      · subst hk
        simp [mapPush, mapFind?, Ne.symm h]
      · simp only [mapPush, if_neg hk, mapFind?, ih]

theorem executeCommand_pieces_map (cmd : List Nat) (s : FilesState)
    (disk : List Nat → Option (List Nat)) :
    (Seeder.executeCommand cmd s disk).2.filePathToAvailablePieces
      = s.filePathToAvailablePieces := by
  unfold Seeder.executeCommand
  repeat' split
  all_goals rfl

theorem piecesOf_addPieceToFilepath (s : FilesState) (filePath : List Nat) (n : Int) :
    Files.piecesOf (Files.addPieceToFilepath filePath n s) filePath
      = Files.piecesOf s filePath ++ [n] := by
  unfold Files.piecesOf Files.addPieceToFilepath
  rw [mapFind?_mapPush]
  rfl

theorem applyFilesOp_pieces_mono (op : FilesOp) (s : FilesState) (path : List Nat) (n : Int)
    (h : n ∈ Files.piecesOf s path) : n ∈ Files.piecesOf (applyFilesOp op s) path := by
  cases op with
  | addFilepath fn gn fp => exact h
  | addPieceToFilepath fp m =>
      show n ∈ Files.piecesOf (Files.addPieceToFilepath fp m s) path
      by_cases hp : path = fp
      · subst hp
        rw [piecesOf_addPieceToFilepath]
        exact List.mem_append_left _ h
      · unfold Files.piecesOf at h ⊢
        show n ∈ (mapFind? (mapPush s.filePathToAvailablePieces fp m) path).getD []
        rw [mapFind?_mapPush_ne _ _ _ _ hp]
        exact h
  | giveFilePath fn gn => exact h
  | giveAvailablePieces fp => exact h
  | isPieceAvailable fp m => exact h
  | seederCommand cmd disk =>
      show n ∈ Files.piecesOf (Seeder.executeCommand cmd s disk).2 path
      unfold Files.piecesOf at h ⊢
      rw [executeCommand_pieces_map]
      exact h

theorem append_ne_nil_left {l r : List Nat} (h : l ≠ []) : l ++ r ≠ [] := by
  cases l with
  | nil => exact absurd rfl h
  | cons c t => simp

theorem tokenize_three (a b c : List Nat)
    (ha : a ≠ []) (has : ∀ x ∈ a, x ≠ spaceByte)
    (hb : b ≠ []) (hbs : ∀ x ∈ b, x ≠ spaceByte)
    (hc : c ≠ []) (hcs : ∀ x ∈ c, x ≠ spaceByte) :
    Utils.tokenize (a ++ spaceByte :: (b ++ spaceByte :: c)) spaceByte = [a, b, c] := by
  rw [tokenize_token_sep a _ ha has, tokenize_token_sep b _ hb hbs,
    tokenize_token_nil c hc hcs]

theorem tokenize_four (a b c d : List Nat)
    (ha : a ≠ []) (has : ∀ x ∈ a, x ≠ spaceByte)
    (hb : b ≠ []) (hbs : ∀ x ∈ b, x ≠ spaceByte)
    (hc : c ≠ []) (hcs : ∀ x ∈ c, x ≠ spaceByte)
    (hd : d ≠ []) (hds : ∀ x ∈ d, x ≠ spaceByte) :
    Utils.tokenize (a ++ spaceByte :: (b ++ spaceByte :: (c ++ spaceByte :: d))) spaceByte
      = [a, b, c, d] := by
  rw [tokenize_token_sep a _ ha has, tokenize_token_sep b _ hb hbs,
    tokenize_token_sep c _ hc hcs, tokenize_token_nil d hd hds]

theorem executeCommand_give_piece_info_eq (F G : List Nat) (s : FilesState)
    (disk : List Nat → Option (List Nat))
    (hF : F ≠ []) (hFs : ∀ x ∈ F, x ≠ spaceByte)
    (hG : G ≠ []) (hGs : ∀ x ∈ G, x ≠ spaceByte) :
    Seeder.executeCommand
        (strBytes "give_piece_info" ++ spaceByte :: (F ++ spaceByte :: G)) s disk
      = match mapFind? s.fileNameToFilePath (F, G) with
        | none => (.ok [spaceByte], s)
        | some filePath =>
          match mapFind? s.filePathToAvailablePieces filePath with
          | none => (.ok [spaceByte],
              { s with fileNameToFilePath := mapErase s.fileNameToFilePath (F, G) })
          | some pieces =>
              (.ok ((pieces.map (fun n => spaceByte :: intBytes n)).flatten), s) := by
  have hcmd : strBytes "give_piece_info" ++ spaceByte :: (F ++ spaceByte :: G) ≠ [] :=
    append_ne_nil_left (by decide)
  have htok := tokenize_three (strBytes "give_piece_info") F G (by decide) (by decide)
    hF hFs hG hGs
  unfold Seeder.executeCommand
  rw [if_neg hcmd]
  simp only [htok]
  rw [if_pos trivial]

theorem executeCommand_give_piece_eq (F G : List Nat) (N : Int) (s : FilesState)
    (disk : List Nat → Option (List Nat))
    (hF : F ≠ []) (hFs : ∀ x ∈ F, x ≠ spaceByte)
    (hG : G ≠ []) (hGs : ∀ x ∈ G, x ≠ spaceByte) :
    Seeder.executeCommand
        (strBytes "give_piece" ++ spaceByte :: (F ++ spaceByte :: (G ++ spaceByte :: intBytes N)))
        s disk
      = match mapFind? s.fileNameToFilePath (F, G) with
        | none => (.error "File not Exist!!", s)
        | some filePath =>
          match mapFind? s.filePathToAvailablePieces filePath with
          | none => (.error "Filepieces map not Exist!!", s)
          | some tempVec =>
            if N ∈ tempVec then
              match disk filePath with
              | none => (.error "Failed to open file at Seeder!!", s)
              | some content =>
                if N < 0 then (.error "Failed to Seek at seeder!!", s)
                else (.ok ((content.drop (PIECE_SIZE * N.toNat)).take PIECE_SIZE), s)
            else (.error "Piece not Found!!", s) := by
  have hcmd : strBytes "give_piece"
      ++ spaceByte :: (F ++ spaceByte :: (G ++ spaceByte :: intBytes N)) ≠ [] :=
    append_ne_nil_left (by decide)
  have htok := tokenize_four (strBytes "give_piece") F G (intBytes N) (by decide) (by decide)
    hF hFs hG hGs (intBytes_ne_nil N) (intBytes_no_sep N)
  have hne2 : strBytes "give_piece" ≠ strBytes "give_piece_info" := by decide
  unfold Seeder.executeCommand
  rw [if_neg hcmd]
  simp only [htok, if_neg hne2, stoi_intBytes]
  rw [if_pos trivial]

/-! ### Claim theorems -/

/-- C3: for every non-empty file, `findSHA` returns `1 + ⌈size/1024⌉` hashes:
element 0 is the hash of the whole file, elements `1..P` hash the consecutive
`PIECE_SIZE`-byte chunks, the final chunk holding `size − 1024·(P−1)` bytes, a
value in `[1, 1024]`; a one-byte file gives one piece hash over the whole
(1-byte) file, and an exact multiple of 1024 has a final chunk of exactly
1024 bytes. -/
theorem claim_C3_findSHA (H : List Nat → String) (file : List Nat) (h : file ≠ []) :
    PIECE_SIZE = 1024 ∧
    (Utils.findSHA H file).length = 1 + (file.length + 1023) / 1024 ∧
    Utils.findSHA H file
      = H file :: (List.range ((file.length + 1023) / 1024)).map
          (fun i => H ((file.drop (1024 * i)).take 1024)) ∧
    ((file.drop (1024 * ((file.length + 1023) / 1024 - 1))).take 1024).length
      = file.length - 1024 * ((file.length + 1023) / 1024 - 1) ∧
    1 ≤ file.length - 1024 * ((file.length + 1023) / 1024 - 1) ∧
    file.length - 1024 * ((file.length + 1023) / 1024 - 1) ≤ 1024 ∧
    (file.length = 1 → Utils.findSHA H file = [H file, H file]) ∧
    (∀ k, file.length = 1024 * k →
      file.length - 1024 * ((file.length + 1023) / 1024 - 1) = 1024) := by
  have hlen0 : file.length ≠ 0 := fun h0 => h (List.length_eq_zero.mp h0)
  have heq := findSHA_eq H file h
  have h1023 : PIECE_SIZE - 1 = 1023 := rfl
  have hP : PIECE_SIZE = 1024 := rfl
  rw [h1023, hP] at heq
  refine ⟨hP, ?_, heq, ?_, ?_, ?_, ?_, ?_⟩
  · rw [heq]
    simp only [List.length_cons, List.length_map, List.length_range]
    omega
  · rw [List.length_take, List.length_drop]
    omega
  · omega
  · omega
  · intro h1
    rw [heq, h1]
    have hq : ((1 : Nat) + 1023) / 1024 = 1 := rfl
    have hr1 : List.range 1 = [0] := rfl
    have h0 : (1024 : Nat) * 0 = 0 := rfl
    rw [hq, hr1, List.map_cons, List.map_nil, h0, List.drop_zero,
      List.take_of_length_le (by omega)]
  · intro k hk
    omega

/-- C3 witness: the theorem instantiated at the one-byte file `[7]` with the
hash function returning the decimal length of its input. -/
theorem claim_C3_findSHA_witness :
    ([7] : List Nat) ≠ [] ∧
    (Utils.findSHA (fun l => toString l.length) [7]).length
      = 1 + (([7] : List Nat).length + 1023) / 1024 ∧
    (([7] : List Nat).length = 1 →
      Utils.findSHA (fun l => toString l.length) [7]
        = [toString ([7] : List Nat).length, toString ([7] : List Nat).length]) :=
  ⟨by decide,
   (claim_C3_findSHA (fun l => toString l.length) [7] (by decide)).2.1,
   (claim_C3_findSHA (fun l => toString l.length) [7] (by decide)).2.2.2.2.2.2.1⟩

/-- C10: `Logger::log` guards the `pop_back` with
`content.empty() || content[content.size()-1] == '\n'`, so on the empty
string the condition is true and `pop_back()` is invoked on an empty
`std::string` (undefined behaviour), contradicting the claim that the final
character is removed only from a non-empty string ending in a newline. -/
theorem claim_C10_logger_empty_pop :
    Logger.logTrims [] = true ∧ Logger.logContentAfterTrim [] = none := by
  constructor <;> rfl

/-- C7 counterexample: with path `"p"` (byte `[112]`) already holding piece 5,
`addPieceToFilepath` appends a duplicate, so the collection is not left equal
to its prior value. -/
theorem claim_C7_counterexample :
    Files.piecesOf
        (Files.addPieceToFilepath [112] 5 ⟨[], [([112], [5])]⟩) [112]
      ≠ Files.piecesOf ⟨[], [([112], [5])]⟩ [112] := by
  decide

/-- C7 amended: `addPieceToFilepath` appends unconditionally: the collection
for `filePath` becomes its prior value with `pieceNumber` appended (even when
already recorded, producing duplicates); it is a vector, not a set. -/
theorem claim_C7_amended (s : FilesState) (filePath : List Nat) (pieceNumber : Int) :
    Files.piecesOf (Files.addPieceToFilepath filePath pieceNumber s) filePath
      = Files.piecesOf s filePath ++ [pieceNumber] :=
  piecesOf_addPieceToFilepath s filePath pieceNumber

/-- C8 counterexample: `Leecher::showDownloads` does send a command to the
tracker (the input line with the session token appended), so its message list
is not empty. -/
theorem claim_C8_counterexample :
    Leecher.showDownloadsMessages (strBytes "show_downloads")
        ⟨strBytes "NULL", [], [], []⟩ ≠ [] := by
  decide

/-- C8 amended: `show_downloads` forwards the command (with the session token
appended) to the tracker and prints the tracker's response; its output does
not depend on the three locally-declared download-session sets. -/
theorem claim_C8_amended (inputFromClient tok : List Nat)
    (a b c a' b' c' : List (List Nat × List Nat)) :
    Leecher.showDownloadsMessages inputFromClient ⟨tok, a, b, c⟩
        = [inputFromClient ++ spaceByte :: tok] ∧
    Leecher.showDownloadsMessages inputFromClient ⟨tok, a, b, c⟩
        = Leecher.showDownloadsMessages inputFromClient ⟨tok, a', b', c'⟩ :=
  ⟨rfl, rfl⟩

/-- C6: across any sequence of local registry operations and seeder commands,
every piece index present in a path's available-piece collection beforehand is
still present afterwards. -/
theorem claim_C6_pieces_monotone (ops : List FilesOp) (s : FilesState) (path : List Nat)
    (n : Int) (h : n ∈ Files.piecesOf s path) :
    n ∈ Files.piecesOf (applyFilesOps ops s) path := by
  induction ops generalizing s with
  | nil => exact h
  | cons op ops ih => exact ih (applyFilesOp op s) (applyFilesOp_pieces_mono op s path n h)

/-- C6 witness: piece 5 of path `[112]` survives an `addPieceToFilepath` of a
different piece followed by a read-only query. -/
theorem claim_C6_pieces_monotone_witness :
    (5 : Int) ∈ Files.piecesOf ⟨[], [([112], [5])]⟩ [112] ∧
    (5 : Int) ∈ Files.piecesOf
        (applyFilesOps [FilesOp.addPieceToFilepath [112] 9,
          FilesOp.giveAvailablePieces [112]] ⟨[], [([112], [5])]⟩) [112] :=
  ⟨by decide, claim_C6_pieces_monotone _ _ _ _ (by decide)⟩

/-- C1: when the registry maps `(F, G)` to a readable on-disk file whose
available-piece list contains `N`, `give_piece F G N` returns exactly the
bytes of the file in the range
`[N·1024, N·1024 + min(1024, fileSize − N·1024))` and leaves the registry
unchanged. -/
theorem claim_C1_give_piece (F G path content : List Nat) (N : Nat) (pieces : List Int)
    (s : FilesState) (disk : List Nat → Option (List Nat))
    (hF : F ≠ []) (hFs : ∀ x ∈ F, x ≠ spaceByte)
    (hG : G ≠ []) (hGs : ∀ x ∈ G, x ≠ spaceByte)
    (hpath : mapFind? s.fileNameToFilePath (F, G) = some path)
    (hpieces : mapFind? s.filePathToAvailablePieces path = some pieces)
    (hN : (N : Int) ∈ pieces)
    (hdisk : disk path = some content) :
    Seeder.executeCommand
        (strBytes "give_piece"
          ++ spaceByte :: (F ++ spaceByte :: (G ++ spaceByte :: toDecimal N))) s disk
      = (.ok ((content.drop (1024 * N)).take (min 1024 (content.length - 1024 * N))), s) := by
  have hib : intBytes (N : Int) = toDecimal N := by
    rw [intBytes_toDecimal_of_nonneg (by omega)]
    rfl
  rw [← hib, executeCommand_give_piece_eq F G (N : Int) s disk hF hFs hG hGs]
  simp only [hpath, hpieces, if_pos hN, hdisk]
  rw [if_neg (by omega)]
  have htN : ((N : Int)).toNat = N := by omega
  have hPS : PIECE_SIZE = 1024 := rfl
  rw [htN, hPS, take_eq_take_min (content.drop (1024 * N)) 1024, List.length_drop]

/-- C1 witness: piece 0 of the 3-byte file `[1, 2, 3]` registered for
file `[102]` in group `[103]` at path `[112]`. -/
theorem claim_C1_give_piece_witness :
    Seeder.executeCommand
        (strBytes "give_piece"
          ++ spaceByte :: ([102] ++ spaceByte :: ([103] ++ spaceByte :: toDecimal 0)))
        ⟨[(([102], [103]), [112])], [([112], [0])]⟩
        (fun q => if q = [112] then some [1, 2, 3] else none)
      = (.ok ((([1, 2, 3] : List Nat).drop (1024 * 0)).take
            (min 1024 (([1, 2, 3] : List Nat).length - 1024 * 0))),
         ⟨[(([102], [103]), [112])], [([112], [0])]⟩) :=
  claim_C1_give_piece [102] [103] [112] [1, 2, 3] 0 [0]
    ⟨[(([102], [103]), [112])], [([112], [0])]⟩
    (fun q => if q = [112] then some [1, 2, 3] else none)
    (by decide) (by decide) (by decide) (by decide)
    (by decide) (by decide) (by decide) (by decide)

/-- C4: `give_piece_info F G` answers the single space `" "` when `(F, G)` is
not in the registry or the recorded path has no piece list; otherwise its
payload tokenizes to exactly the recorded piece indices, in order. -/
theorem claim_C4_give_piece_info (F G : List Nat) (s : FilesState)
    (disk : List Nat → Option (List Nat))
    (hF : F ≠ []) (hFs : ∀ x ∈ F, x ≠ spaceByte)
    (hG : G ≠ []) (hGs : ∀ x ∈ G, x ≠ spaceByte) :
    (((mapFind? s.fileNameToFilePath (F, G)).bind
        (fun p => mapFind? s.filePathToAvailablePieces p)) = none →
      (Seeder.executeCommand
          (strBytes "give_piece_info" ++ spaceByte :: (F ++ spaceByte :: G)) s disk).1
        = .ok [spaceByte]) ∧
    (∀ path pieces, mapFind? s.fileNameToFilePath (F, G) = some path →
      mapFind? s.filePathToAvailablePieces path = some pieces →
      (Seeder.executeCommand
          (strBytes "give_piece_info" ++ spaceByte :: (F ++ spaceByte :: G)) s disk).1
        = .ok ((pieces.map (fun n => spaceByte :: intBytes n)).flatten) ∧
      Utils.tokenize ((pieces.map (fun n => spaceByte :: intBytes n)).flatten) spaceByte
        = pieces.map intBytes) := by
  rw [executeCommand_give_piece_info_eq F G s disk hF hFs hG hGs]
  constructor
  · intro hnone
    cases h1 : mapFind? s.fileNameToFilePath (F, G) with
    | none => simp only [h1]
    | some path =>
        rw [h1] at hnone
        have hnone' : mapFind? s.filePathToAvailablePieces path = none := hnone
        simp only [h1, hnone']
  · intro path pieces h1 h2
    refine ⟨by simp only [h1, h2], ?_⟩
    exact tokenize_flatten_tokens intBytes intBytes_ne_nil intBytes_no_sep pieces

/-- C4 witness: the absent-file case on an empty registry and the
present-file case with an empty recorded piece list. -/
theorem claim_C4_give_piece_info_witness :
    (Seeder.executeCommand
        (strBytes "give_piece_info" ++ spaceByte :: ([102] ++ spaceByte :: [103]))
        ⟨[], []⟩ (fun q => none)).1 = .ok [spaceByte] ∧
    (Seeder.executeCommand
        (strBytes "give_piece_info" ++ spaceByte :: ([102] ++ spaceByte :: [103]))
        ⟨[(([102], [103]), [112])], [([112], [])]⟩ (fun q => none)).1
      = .ok ((([] : List Int).map (fun n => spaceByte :: intBytes n)).flatten) :=
  ⟨(claim_C4_give_piece_info [102] [103] ⟨[], []⟩ (fun q => none)
      (by decide) (by decide) (by decide) (by decide)).1 (by decide),
   ((claim_C4_give_piece_info [102] [103] ⟨[(([102], [103]), [112])], [([112], [])]⟩
      (fun q => none)
      (by decide) (by decide) (by decide) (by decide)).2 [112] [] (by decide) (by decide)).1⟩

/-- C5: `give_piece F G N` replies with a thrown error whenever the three
lookups do not all succeed (the `(F, G)` entry, the path's piece vector, and
membership of `N`), and returns a payload only when they all succeed. -/
theorem claim_C5_give_piece_errors (F G : List Nat) (N : Int) (s : FilesState)
    (disk : List Nat → Option (List Nat))
    (hF : F ≠ []) (hFs : ∀ x ∈ F, x ≠ spaceByte)
    (hG : G ≠ []) (hGs : ∀ x ∈ G, x ≠ spaceByte) :
    ((¬ ∃ path pieces, mapFind? s.fileNameToFilePath (F, G) = some path ∧
        mapFind? s.filePathToAvailablePieces path = some pieces ∧ N ∈ pieces) →
      ∃ e, (Seeder.executeCommand
          (strBytes "give_piece"
            ++ spaceByte :: (F ++ spaceByte :: (G ++ spaceByte :: intBytes N))) s disk).1
        = .error e) ∧
    (∀ r, (Seeder.executeCommand
          (strBytes "give_piece"
            ++ spaceByte :: (F ++ spaceByte :: (G ++ spaceByte :: intBytes N))) s disk).1
        = .ok r →
      ∃ path pieces, mapFind? s.fileNameToFilePath (F, G) = some path ∧
        mapFind? s.filePathToAvailablePieces path = some pieces ∧ N ∈ pieces) := by
  rw [executeCommand_give_piece_eq F G N s disk hF hFs hG hGs]
  constructor
  · intro hnot
    cases h1 : mapFind? s.fileNameToFilePath (F, G) with
    | none => exact ⟨"File not Exist!!", by simp only [h1]⟩
    | some path =>
        cases h2 : mapFind? s.filePathToAvailablePieces path with
        | none => exact ⟨"Filepieces map not Exist!!", by simp only [h1, h2]⟩
        | some vec =>
            by_cases hmem : N ∈ vec
            · exact absurd ⟨path, vec, h1, h2, hmem⟩ hnot
            · exact ⟨"Piece not Found!!", by simp only [h1, h2, if_neg hmem]⟩
  · intro r hr
    cases h1 : mapFind? s.fileNameToFilePath (F, G) with
    | none => rw [h1] at hr; simp at hr
    | some path =>
        cases h2 : mapFind? s.filePathToAvailablePieces path with
        | none => rw [h1] at hr; simp only [h2] at hr; simp at hr
        | some vec =>
            by_cases hmem : N ∈ vec
            · exact ⟨path, vec, rfl, h2, hmem⟩
            · rw [h1] at hr
              simp only [h2, if_neg hmem] at hr
              simp at hr

/-- C5 witness: on an empty registry every `give_piece` request errors. -/
theorem claim_C5_give_piece_errors_witness :
    ∃ e, (Seeder.executeCommand
        (strBytes "give_piece"
          ++ spaceByte :: ([102] ++ spaceByte :: ([103] ++ spaceByte :: intBytes 0)))
        ⟨[], []⟩ (fun q => none)).1 = .error e :=
  (claim_C5_give_piece_errors [102] [103] 0 ⟨[], []⟩ (fun q => none)
      (by decide) (by decide) (by decide) (by decide)).1
    (by rintro ⟨path, pieces, hp, -, -⟩; simp [mapFind?] at hp)

/-- C9 counterexample: with `(F, G)` mapped to a path that has no piece
vector, `give_piece_info` erases the `(F, G)` entry, so the registry maps are
not the same after the request. -/
theorem claim_C9_counterexample :
    (Seeder.executeCommand
        (strBytes "give_piece_info" ++ spaceByte :: ([102] ++ spaceByte :: [103]))
        ⟨[(([102], [103]), [112])], []⟩ (fun q => none)).2
      ≠ ⟨[(([102], [103]), [112])], []⟩ := by
  decide

/-- C9 amended: `give_piece_info` never modifies the path-to-pieces map, and
leaves the filename-to-path map unchanged except when the recorded path has no
entry in the pieces map, in which case it erases the stale `(F, G)` entry. -/
theorem claim_C9_amended (F G : List Nat) (s : FilesState)
    (disk : List Nat → Option (List Nat))
    (hF : F ≠ []) (hFs : ∀ x ∈ F, x ≠ spaceByte)
    (hG : G ≠ []) (hGs : ∀ x ∈ G, x ≠ spaceByte) :
    ((Seeder.executeCommand
        (strBytes "give_piece_info" ++ spaceByte :: (F ++ spaceByte :: G)) s
        disk).2.filePathToAvailablePieces = s.filePathToAvailablePieces) ∧
    (mapFind? s.fileNameToFilePath (F, G) = none →
      (Seeder.executeCommand
          (strBytes "give_piece_info" ++ spaceByte :: (F ++ spaceByte :: G)) s
          disk).2.fileNameToFilePath = s.fileNameToFilePath) ∧
    (∀ path, mapFind? s.fileNameToFilePath (F, G) = some path →
      mapFind? s.filePathToAvailablePieces path = none →
      (Seeder.executeCommand
          (strBytes "give_piece_info" ++ spaceByte :: (F ++ spaceByte :: G)) s
          disk).2.fileNameToFilePath = mapErase s.fileNameToFilePath (F, G)) ∧
    (∀ path pieces, mapFind? s.fileNameToFilePath (F, G) = some path →
      mapFind? s.filePathToAvailablePieces path = some pieces →
      (Seeder.executeCommand
          (strBytes "give_piece_info" ++ spaceByte :: (F ++ spaceByte :: G)) s
          disk).2.fileNameToFilePath = s.fileNameToFilePath) := by
  refine ⟨executeCommand_pieces_map _ s disk, ?_, ?_, ?_⟩
  · intro h1
    rw [executeCommand_give_piece_info_eq F G s disk hF hFs hG hGs]
    simp only [h1]
  · intro path h1 h2
    rw [executeCommand_give_piece_info_eq F G s disk hF hFs hG hGs]
    simp only [h1, h2]
  · intro path pieces h1 h2
    rw [executeCommand_give_piece_info_eq F G s disk hF hFs hG hGs]
    simp only [h1, h2]

/-- C9 witness: on the counterexample state the pieces map is untouched and
the filename map loses exactly the stale entry. -/
theorem claim_C9_amended_witness :
    (Seeder.executeCommand
        (strBytes "give_piece_info" ++ spaceByte :: ([102] ++ spaceByte :: [103]))
        ⟨[(([102], [103]), [112])], []⟩
        (fun q => none)).2.filePathToAvailablePieces = [] ∧
    (Seeder.executeCommand
        (strBytes "give_piece_info" ++ spaceByte :: ([102] ++ spaceByte :: [103]))
        ⟨[(([102], [103]), [112])], []⟩ (fun q => none)).2.fileNameToFilePath
      = mapErase [(([102], [103]), [112])] ([102], [103]) :=
  ⟨(claim_C9_amended [102] [103] ⟨[(([102], [103]), [112])], []⟩ (fun q => none)
      (by decide) (by decide) (by decide) (by decide)).1,
   (claim_C9_amended [102] [103] ⟨[(([102], [103]), [112])], []⟩ (fun q => none)
      (by decide) (by decide) (by decide) (by decide)).2.2.1 [112] (by decide) (by decide)⟩

/-- C2: length-prefix framing round-trips for every payload within the
`int`/`stoi` range of the receiver: the sender transmits the decimal byte
length, a single space, then the payload (which may contain arbitrary bytes,
including spaces, zero bytes and the empty payload), and both receivers
(`ClientSocket::recvSocket` and `ServerSocket::recvSocket`) recover exactly
the payload. -/
theorem claim_C2_framing_round_trip (m : List Nat) (hm : m.length < 2147483648) :
    ClientSocket.sendSocket m = toDecimal m.length ++ spaceByte :: m ∧
    ServerSocket.sendSocket m = toDecimal m.length ++ spaceByte :: m ∧
    ClientSocket.recvSocket (ClientSocket.sendSocket m) = .ok m ∧
    ServerSocket.recvSocket (ServerSocket.sendSocket m) = .ok m :=
  ⟨rfl, rfl, recvFromStream_sendFrame _ m hm, recvFromStream_sendFrame _ m hm⟩

/-- C2 witness: a four-byte binary payload containing a zero byte and a space
byte round-trips through both receivers. -/
theorem claim_C2_framing_round_trip_witness :
    ClientSocket.recvSocket (ClientSocket.sendSocket [0, 255, 32, 7]) = .ok [0, 255, 32, 7] ∧
    ServerSocket.recvSocket (ServerSocket.sendSocket [0, 255, 32, 7]) = .ok [0, 255, 32, 7] :=
  ⟨(claim_C2_framing_round_trip [0, 255, 32, 7] (by decide)).2.2.1,
   (claim_C2_framing_round_trip [0, 255, 32, 7] (by decide)).2.2.2⟩

end P2P
